import Mathlib

/-!
Verification of the repository-set resolution and command orchestration of
clap (src/clap/clap.py), a batch tool driving git/pip over a fixed
catalogue of repositories.  The Python 2 source is shallowly embedded:

* the module constants MASTER, CORE_REPOS, DEV_REPOS, REPOS are copied
  verbatim;
* the plain Python 2 dict built by the comprehension in _get_repos is
  modelled faithfully, including CPython 2.7 string hashing and the open
  addressing table with its resize policy, because the dict iteration
  order (table-slot order) is observable through iteritems();
* OrderedDict and the repos_dict of _parse_requirements are modelled as
  association lists with in-place value update;
* sh command invocations are modelled as Except-valued inputs: ok carries
  the command output, error carries the raised ErrorReturnCode message;
* each CLI operation becomes a function from the per-repository command
  results to the list of (repository, reported output) pairs it prints.
-/

set_option autoImplicit false
set_option maxRecDepth 1000000

namespace Clap

/-- Constant MASTER from clap.py. -/
def MASTER : String := "master"

/-- Constant CORE_REPOS from clap.py, in source order. -/
def CORE_REPOS : List String :=
  [ "cloudify-dsl-parser"
  , "cloudify-rest-client"
  , "cloudify-plugins-common"
  , "cloudify-diamond-plugin"
  , "cloudify-agent"
  , "cloudify-cli"
  , "cloudify-manager"
  , "cloudify-manager-blueprints"
  , "cloudify-premium"
  , "cloudify-script-plugin"
  , "cloudify-amqp-influxdb"
  , "docl" ]

/-- Constant DEV_REPOS from clap.py, in source order. -/
def DEV_REPOS : List String :=
  [ "cloudify-fabric-plugin"
  , "cloudify-system-tests"
  , "cloudify-dev" ]

/-- Constant REPOS = CORE_REPOS + DEV_REPOS from clap.py. -/
def REPOS : List String := CORE_REPOS ++ DEV_REPOS

/-! ## CPython 2.7 dict model

The comprehension in _get_repos builds a plain Python 2 dict, and its
iteritems() order is the hash-table slot order.  We reproduce CPython
2.7 on 64-bit exactly: string hashing (stringobject.c, string_hash),
probing (dictobject.c, lookdict), and the resize rule of
PyDict_SetItem / dictresize.  All arithmetic is on Nat reduced mod 2^64,
matching the unsigned 64-bit bit patterns the C code computes with. -/

/-- Modulus for 64-bit machine arithmetic. -/
def U64 : Nat := 2 ^ 64

/-- Inner loop of CPython 2.7 string_hash: x = (1000003 * x) XOR byte,
on 64-bit words. -/
def pyHashStep (x : Nat) (cs : List Char) : Nat :=
  match cs with
  | [] => x
  | c :: rest => pyHashStep ((1000003 * x) % U64 ^^^ c.toNat % U64) rest

/-- CPython 2.7 string hash of an ASCII string, as its unsigned 64-bit
bit pattern: x starts at first byte shifted left 7, then one pyHashStep
per byte, then x is XORed with the length, and -1 is replaced by -2. -/
def pyHash (s : String) : Nat :=
  match s.data with
  | [] => 0
  | c :: _ =>
    let x := pyHashStep ((c.toNat <<< 7) % U64) s.data
    let x := x ^^^ s.data.length % U64
    if x = U64 - 1 then U64 - 2 else x

/-- Hash-table state of a CPython 2.7 dict holding string keys; the slot
list has power-of-two length, fill counts occupied slots (no deletions
occur in clap, so fill always equals used). -/
structure PyDict where
  table : List (Option String)
  used : Nat
  fill : Nat

/-- Empty dict: the 8-slot small table of a fresh CPython dict. -/
def PyDict.empty : PyDict :=
  ⟨List.replicate 8 none, 0, 0⟩

/-- Probe loop of lookdict: from unmasked index i and perturb, step
i = 5*i + perturb + 1 and perturb = perturb >>> 5 until the masked slot
is free or holds the key; fuel bounds the recursion and is chosen large
enough that it is never exhausted on the concrete tables we evaluate. -/
def probeLoop (table : List (Option String)) (key : String)
    (i perturb : Nat) : Nat → Nat
  | 0 => i % table.length
  | fuel + 1 =>
    let i2 := (5 * i + perturb + 1) % U64
    let slot := i2 % table.length
    match table.get? slot with
    | some none => slot
    | some (some k) => if k = key then slot else probeLoop table key i2 (perturb >>> 5) fuel
    | none => slot

/-- Slot returned by lookdict for a key: the first probe position that is
free or already holds the key. -/
def lookSlot (table : List (Option String)) (key : String) (hash : Nat) : Nat :=
  let i := hash % table.length
  match table.get? i with
  | some none => i
  | some (some k) => if k = key then i else probeLoop table key i hash (table.length + 64)
  | none => i

/-- Insertion as insertdict performs it, without the resize check;
overwriting an existing key changes no slot. -/
def PyDict.insertNoResize (d : PyDict) (key : String) : PyDict :=
  let slot := lookSlot d.table key (pyHash key)
  match d.table.get? slot with
  | some (some _) => d
  | _ => ⟨d.table.set slot (some key), d.used + 1, d.fill + 1⟩

/-- Smallest power of two strictly greater than minused, starting at 8,
as computed by dictresize. -/
def newSize (minused : Nat) : Nat → Nat
  | 0 => 8
  | fuel + 1 => if 8 * 2 ^ fuel ≤ minused then 8 * 2 ^ fuel * 2 else newSize minused fuel

/-- Keys of the dict in table-slot order: exactly the iteration order of
iterkeys / iteritems. -/
def PyDict.keys (d : PyDict) : List String :=
  d.table.filterMap id

/-- Resize as dictresize: allocate the new table and reinsert every key
in old-slot order. -/
def PyDict.resize (d : PyDict) (minused : Nat) : PyDict :=
  let sz := newSize minused 64
  d.keys.foldl (fun acc k => acc.insertNoResize k) ⟨List.replicate sz none, 0, 0⟩

/-- Insertion as PyDict_SetItem: insertdict, then resize to 4 * used when
a key was added and fill * 3 >= size * 2 (clap dicts never exceed 50000
entries, so the factor is always 4). -/
def PyDict.insert (d : PyDict) (key : String) : PyDict :=
  let n_used := d.used
  let d2 := d.insertNoResize key
  if d2.used > n_used ∧ d2.fill * 3 ≥ d2.table.length * 2 then
    d2.resize (4 * d2.used)
  else d2

/-- Iteration order of the Python 2 dict comprehension over the given
keys: insert each in turn, then read the table in slot order. -/
def pyDictKeys (keys : List String) : List String :=
  (keys.foldl PyDict.insert PyDict.empty).keys

/-! ## String helpers mirroring the Python operations used by clap -/

/-- Python str.isspace characters, as used by str.strip. -/
def pyIsSpace (c : Char) : Bool :=
  c = ' ' || c = '\t' || c = '\n' || c = '\r' || c = '\x0b' || c = '\x0c'

/-- Python str.strip on a character list: drop leading and trailing
whitespace. -/
def pyStripChars (cs : List Char) : List Char :=
  ((cs.dropWhile pyIsSpace).reverse.dropWhile pyIsSpace).reverse

/-- Python str.split with a one-character separator: splitting never
drops fields, and an empty input yields one empty field. -/
def splitAll (sep : Char) : List Char → List (List Char)
  | [] => [[]]
  | c :: rest =>
    if c = sep then [] :: splitAll sep rest
    else
      match splitAll sep rest with
      | [] => [[c]]
      | t :: ts => (c :: t) :: ts

/-- Boolean test that the first list is an initial segment of the second. -/
def hasPre : List Char → List Char → Bool
  | [], _ => true
  | _ :: _, [] => false
  | n :: ns, h :: hs => n = h && hasPre ns hs

/-- Boolean test that needle occurs contiguously inside the second list:
the Python in operator on strings. -/
def hasSub (needle : List Char) : List Char → Bool
  | [] => needle.isEmpty
  | c :: rest => hasPre needle (c :: rest) || hasSub needle rest

/-- Python needle in hay on strings. -/
def strContains (hay needle : String) : Bool :=
  hasSub needle.data hay.data

/-! ## Association lists standing for dict / OrderedDict

A Python dict assignment d[k] = v updates the value in place when k is
present and appends otherwise; iteration order of OrderedDict is
insertion order, which the association list records directly.  The plain
repos_dict of _parse_requirements is only ever read through lookups, so
the same representation is faithful for it as well. -/

/-- Assignment d[k] = v on an association list. -/
def assocUpdate : List (String × String) → String → String → List (String × String)
  | [], k, v => [(k, v)]
  | p :: rest, k, v => if p.1 = k then (p.1, v) :: rest else p :: assocUpdate rest k v

/-- Lookup d[k]: value at the first (for well-formed dicts, unique)
occurrence of the key. -/
def alookup (k : String) : List (String × String) → Option String
  | [] => none
  | p :: rest => if p.1 = k then some p.2 else alookup k rest

/-- Value paired with the last occurrence of a key in a plain pair list;
this is what repeated dict assignment leaves behind. -/
def lastVal (k : String) : List (String × String) → Option String
  | [] => none
  | p :: rest =>
    match lastVal k rest with
    | some v => some v
    | none => if p.1 = k then some p.2 else none

/-- Removal dict.pop(k): drop the first occurrence of the key. -/
def odRemove (k : String) : List (String × String) → List (String × String)
  | [] => []
  | p :: rest => if p.1 = k then rest else p :: odRemove k rest

/-! ## RepoSet resolution (_parse_requirements and _get_repos) -/

/-- Processing of one requirements line inside _parse_requirements: strip
the line, and when it contains an at sign unpack line.split on the at
sign into exactly two parts — three or more parts make the unpacking
raise ValueError, modelled as the error case.  A line without an at sign
is a bare repository name pinned to the invocation branch. -/
def parseLine (branch : String) (line : String) : Except String (String × String) :=
  let l := pyStripChars line.data
  if l.count '@' ≥ 1 then
    match splitAll '@' l with
    | [r, rb] => .ok (String.mk r, String.mk rb)
    | _ => .error "ValueError: too many values to unpack"
  else
    .ok (String.mk l, branch)

/-- Line loop of _parse_requirements building repos_dict; an unpacking
error aborts the whole call, exactly as the uncaught ValueError does. -/
def buildDict (branch : String) : List String → List (String × String) →
    Except String (List (String × String))
  | [], d => .ok d
  | line :: rest, d =>
    match parseLine branch line with
    | .error e => .error e
    | .ok p => buildDict branch rest (assocUpdate d p.1 p.2)

/-- Model of _parse_requirements: build repos_dict from the file lines,
then rebuild actual_repos by scanning the catalogue (the global REPOS in
the source, kept as a parameter so the spec examples over a two-element
catalogue can be stated) and keeping the entries present in repos_dict.
The returned list is the actual_repos OrderedDict. -/
def parse_requirements (catalogue : List String) (lines : List String)
    (branch : String) : Except String (List (String × String)) :=
  match buildDict branch lines [] with
  | .error e => .error e
  | .ok d => .ok (catalogue.filterMap (fun r => (alookup r d).map (fun b => (r, b))))

/-- Pairs produced by the successfully parsed lines, in line order. -/
def parsedPairs (branch : String) (lines : List String) : List (String × String) :=
  lines.filterMap (fun l => (parseLine branch l).toOption)

/-- Model of _get_repos.  The actual argument is the module-level
actual_repos OrderedDict (empty when no requirements file was parsed).
When it is non-empty and the branch argument differs from MASTER, every
entry still pinned to MASTER is rewritten to the branch argument; when it
is empty, the function returns the items of the plain Python 2 dict
comprehension over REPOS or CORE_REPOS, whose iteration order is the
hash-table order of pyDictKeys. -/
def _get_repos (actual : List (String × String)) (branch : String)
    (dev : Bool) : List (String × String) :=
  if actual.isEmpty then
    (pyDictKeys (if dev then REPOS else CORE_REPOS)).map (fun r => (r, branch))
  else if branch = MASTER then
    actual
  else
    actual.map (fun p => (p.1, if p.2 = MASTER then branch else p.2))

/-! ## Package derivation (_get_cloudify_packages) -/

/-- Model of _get_cloudify_packages, with the _get_repos() call factored
out as the repoSet parameter.  The packages OrderedDict maps each
repository name to itself; the cloudify-manager entry is popped (the
popped value, or None, drives the truthiness test of the source, hence
the emptiness check on the Option), cloudify-manager-blueprints and
cloudify-dev are popped and dropped, and when the manager was present
the three sub-packages are appended. -/
def _get_cloudify_packages (repoSet : List (String × String)) : List (String × String) :=
  let packages := repoSet.foldl (fun d p => assocUpdate d p.1 p.1) []
  let manager_repo := alookup "cloudify-manager" packages
  let packages := odRemove "cloudify-manager" packages
  let packages := odRemove "cloudify-manager-blueprints" packages
  let packages := odRemove "cloudify-dev" packages
  match manager_repo with
  | none => packages
  | some v =>
    if v = "" then packages
    else
      packages ++
        [ ("cloudify-rest-service", "cloudify-manager/rest-service")
        , ("cloudify-integration-tests", "cloudify-manager/tests")
        , ("cloudify-system-workflows", "cloudify-manager/workflows") ]

/-- Package list the install command iterates: _get_cloudify_packages
applied to _get_repos() with its default arguments branch=MASTER and
dev=True — install exposes no way to change either. -/
def installPackages (actual : List (String × String)) : List (String × String) :=
  _get_cloudify_packages (_get_repos actual MASTER true)

/-! ## Per-operation outcome models

Each sh command invocation is an Except value: ok carries the command
output, error the message of the raised ErrorReturnCode.  Reports pair a
repository (or package) name with the text handed to the output helpers;
_parse_and_print_output renders that text as one tagged line per
nonempty line, which does not affect the per-repository accounting the
claims are about. -/

/-- Outcome of _pull_repo for one repository: any ErrorReturnCode from
git pull is caught and replaced by the fixed no-upstream text. -/
def pullOutcome (res : Except String String) : String :=
  match res with
  | .ok o => o
  | .error _ => "No upstream defined. Skipping pull."

/-- Threads spawned by the pull command: one per repository of the
resolved set, in iteration order. -/
def pullThreads (repoSet : List (String × String)) : List String :=
  repoSet.map Prod.fst

/-- Reports printed by the pull command, indexed by the order in which
the concurrent threads happen to complete (an arbitrary permutation of
the spawn order); the join barrier means every spawned thread
contributes its report before pull returns. -/
def pullReports (order : List String) (res : String → Except String String) :
    List (String × String) :=
  order.map (fun r => (r, pullOutcome (res r)))

/-- Outcome of one iteration of the clone loop: a raised ErrorReturnCode
is caught and formatted (str of the exception keeps the git message), an
empty success output is replaced by the success text of _clone_repo, and
any output containing the git already-exists marker is replaced by the
informational text. -/
def cloneOutcome (repo : String) (res : Except String String) : String :=
  let output :=
    match res with
    | .ok o => if o = "" then "Successfully cloned `" ++ repo ++ "`" else o
    | .error e => "Could not clone repo `" ++ repo ++ "`: " ++ e
  if strContains output "fatal: destination path" then
    "Repo is already cloned (the folder exists)"
  else output

/-- Clone loop over the resolved set: res gives the git clone result for
each repository and branch. -/
def cloneRun (repos : List (String × String))
    (res : String → String → Except String String) : List (String × String) :=
  repos.map (fun p => (p.1, cloneOutcome p.1 (res p.1 p.2)))

/-- Outcome of one iteration of the checkout loop: a raised
ErrorReturnCode is caught and replaced by the fixed failure text. -/
def checkoutOutcome (b : String) (res : Except String String) : String :=
  match res with
  | .ok o => o
  | .error _ => "Could not checkout branch `" ++ b ++ "`"

/-- Checkout loop over the resolved set. -/
def checkoutRun (repos : List (String × String))
    (res : String → String → Except String String) : List (String × String) :=
  repos.map (fun p => (p.1, checkoutOutcome p.2 (res p.1 p.2)))

/-- Outcome of one iteration of the install loop: any exception from pip
install is caught and formatted, and the loop continues. -/
def installOutcome (res : Except String String) : String :=
  match res with
  | .ok o => o
  | .error e => "Could not pip install repo: " ++ e

/-- Install loop over the derived package list: res gives the pip
install result for each package path, reports are tagged with the
package name. -/
def installRun (packages : List (String × String))
    (res : String → Except String String) : List (String × String) :=
  packages.map (fun p => (p.1, installOutcome (res p.2)))

/-- Git results the status command consumes for one repository: the
symbolic-ref call, the describe fall-back, and the porcelain status
output (whose printing the claims do not touch). -/
structure RepoGit where
  name : String
  symref : Except String String
  describeTags : Except String String
  statusOut : String

/-- Model of _get_current_branch_or_tag: prefer the stripped
symbolic-ref output; on ErrorReturnCode fall back to the stripped
describe output; when that also fails the error propagates. -/
def branchOrTag (sym desc : Except String String) : Except String String :=
  match sym with
  | .ok b => .ok (String.mk (pyStripChars b.data))
  | .error _ =>
    match desc with
    | .ok t => .ok (String.mk (pyStripChars t.data))
    | .error e => .error e

/-- Status loop: reports pair each repository with its resolved ref.
Nothing in status catches the error branchOrTag propagates, so an
unresolvable ref ends the loop: the Boolean records that the command
aborted, and no later repository is processed. -/
def statusRun : List RepoGit → List (String × String) × Bool
  | [] => ([], false)
  | g :: rest =>
    match branchOrTag g.symref g.describeTags with
    | .error _ => ([], true)
    | .ok b =>
      let p := statusRun rest
      ((g.name, b) :: p.1, p.2)

/-- Boolean error test on Except. -/
def isErr {ε α : Type} : Except ε α → Bool
  | .error _ => true
  | .ok _ => false

/-! ## Lemmas on the association-list dictionary -/

theorem alookup_assocUpdate (d : List (String × String)) (k0 v0 k : String) :
    alookup k (assocUpdate d k0 v0) = if k0 = k then some v0 else alookup k d := by
  induction d with
  | nil =>
    by_cases h : k0 = k <;> simp [assocUpdate, alookup, h]
  | cons p rest ih =>
    by_cases hp : p.1 = k0
    · simp only [assocUpdate, if_pos hp]
      by_cases h : k0 = k
      · simp [alookup, hp.trans h, h]
      · have hpk : ¬ p.1 = k := fun hh => h (hp.symm.trans hh)
        simp [alookup, hpk, h]
    · simp only [assocUpdate, if_neg hp]
      by_cases h : p.1 = k
      · have : ¬ k0 = k := fun hk => hp (h.trans hk.symm)
        simp [alookup, h, this]
      · simp [alookup, h, ih]

theorem alookup_foldl_assocUpdate (pairs : List (String × String)) (k : String) :
    ∀ init, alookup k (pairs.foldl (fun d p => assocUpdate d p.1 p.2) init)
      = match lastVal k pairs with
        | some v => some v
        | none => alookup k init := by
  induction pairs with
  | nil => intro init; simp [lastVal]
  | cons p rest ih =>
    intro init
    rw [List.foldl_cons, ih (assocUpdate init p.1 p.2)]
    cases h : lastVal k rest with
    | some v => simp [lastVal, h]
    | none =>
      by_cases hp : p.1 = k <;> simp [lastVal, h, alookup_assocUpdate, hp]

theorem lastVal_eq_none_iff (pairs : List (String × String)) (k : String) :
    lastVal k pairs = none ↔ k ∉ pairs.map Prod.fst := by
  induction pairs with
  | nil => simp [lastVal]
  | cons p rest ih =>
    cases h : lastVal k rest with
    | some v =>
      have hk : k ∈ rest.map Prod.fst := by
        by_contra hkk
        simp [ih.mpr hkk] at h
      simp [lastVal, h, hk]
    | none =>
      have hk := ih.mp h
      by_cases hp : p.1 = k
      · simp [lastVal, h, hp, hk]
      · simp only [lastVal, h, if_neg hp, List.map_cons, List.mem_cons]
        simp [hk, Ne.symm hp]

theorem lastVal_mem (pairs : List (String × String)) (k v : String)
    (h : lastVal k pairs = some v) : (k, v) ∈ pairs := by
  induction pairs with
  | nil => simp [lastVal] at h
  | cons p rest ih =>
    cases hr : lastVal k rest with
    | some w =>
      have hw : lastVal k (p :: rest) = some w := by simp [lastVal, hr]
      rw [hw] at h
      have hwv : w = v := Option.some.inj h
      exact List.mem_cons_of_mem _ (ih (by rw [hr, hwv]))
    | none =>
      have hl : lastVal k (p :: rest) = if p.1 = k then some p.2 else none := by
        simp [lastVal, hr]
      rw [hl] at h
      by_cases hp : p.1 = k
      · rw [if_pos hp] at h
        obtain ⟨a, b⟩ := p
        have ha : a = k := hp
        have hb : b = v := Option.some.inj h
        subst ha
        subst hb
        exact List.mem_cons_self _ _
      · rw [if_neg hp] at h
        exact Option.noConfusion h

theorem lastVal_of_mem_nodup (pairs : List (String × String)) (k v : String)
    (hnd : (pairs.map Prod.fst).Nodup) (h : (k, v) ∈ pairs) :
    lastVal k pairs = some v := by
  induction pairs with
  | nil => simp at h
  | cons p rest ih =>
    rw [List.map_cons, List.nodup_cons] at hnd
    rcases List.mem_cons.mp h with heq | hmem
    · obtain ⟨a, b⟩ := p
      have ha : k = a := congrArg Prod.fst heq
      have hb : v = b := congrArg Prod.snd heq
      subst ha
      subst hb
      have hnone : lastVal k rest = none := (lastVal_eq_none_iff rest k).mpr hnd.1
      simp [lastVal, hnone]
    · have := ih hnd.2 hmem
      simp [lastVal, this]

theorem splitAll_length (sep : Char) (cs : List Char) :
    (splitAll sep cs).length = cs.count sep + 1 := by
  induction cs with
  | nil => simp [splitAll]
  | cons c rest ih =>
    by_cases h : c = sep
    · simp [splitAll, h, List.count_cons, ih]
    · have hne : (c == sep) = false := by simp [h]
      cases hs : splitAll sep rest with
      | nil => simp [hs] at ih
      | cons t ts =>
        simp [splitAll, h, List.count_cons, hne, ← ih, hs]

theorem parseLine_err_of_two_at (branch line : String)
    (h : 2 ≤ (pyStripChars line.data).count '@') :
    isErr (parseLine branch line) = true := by
  rw [parseLine]
  have h1 : (pyStripChars line.data).count '@' ≥ 1 := le_trans (by norm_num) h
  rw [if_pos h1]
  have hlen : 3 ≤ (splitAll '@' (pyStripChars line.data)).length := by
    rw [splitAll_length]
    omega
  cases hs : splitAll '@' (pyStripChars line.data) with
  | nil => simp [hs] at hlen
  | cons a l1 =>
    cases l1 with
    | nil => simp [hs] at hlen
    | cons b l2 =>
      cases l2 with
      | nil => simp [hs] at hlen
      | cons c l3 => simp [isErr]

theorem buildDict_err_of_mem (branch : String) (lines : List String)
    (l : String) (hl : l ∈ lines) (he : isErr (parseLine branch l) = true) :
    ∀ d, isErr (buildDict branch lines d) = true := by
  induction lines with
  | nil => simp at hl
  | cons l0 rest ih =>
    intro d
    rcases List.mem_cons.mp hl with heq | hmem
    · subst heq
      cases hp : parseLine branch l with
      | error e => simp [buildDict, hp, isErr]
      | ok p => simp [hp, isErr] at he
    · cases hp : parseLine branch l0 with
      | error e => simp [buildDict, hp, isErr]
      | ok p => simpa [buildDict, hp] using ih hmem (assocUpdate d p.1 p.2)

theorem buildDict_ok_dict (branch : String) (lines : List String) :
    ∀ d d2, buildDict branch lines d = .ok d2 →
      d2 = (parsedPairs branch lines).foldl (fun d p => assocUpdate d p.1 p.2) d := by
  induction lines with
  | nil =>
    intro d d2 h
    simp [buildDict] at h
    simp [parsedPairs, ← h]
  | cons l0 rest ih =>
    intro d d2 h
    cases hp : parseLine branch l0 with
    | error e => simp [buildDict, hp] at h
    | ok p =>
      rw [buildDict, hp] at h
      have := ih (assocUpdate d p.1 p.2) d2 h
      simp [parsedPairs, hp, Except.toOption] at this ⊢
      exact this

theorem buildDict_ok_of_all (branch : String) (lines : List String)
    (hall : ∀ l ∈ lines, isErr (parseLine branch l) = false) :
    ∀ d, ∃ d2, buildDict branch lines d = .ok d2 := by
  induction lines with
  | nil => intro d; exact ⟨d, rfl⟩
  | cons l0 rest ih =>
    intro d
    cases hp : parseLine branch l0 with
    | error e =>
      have := hall l0 (List.mem_cons_self _ _)
      simp [hp, isErr] at this
    | ok p =>
      obtain ⟨d2, hd2⟩ := ih (fun l hl => hall l (List.mem_cons_of_mem _ hl)) (assocUpdate d p.1 p.2)
      exact ⟨d2, by rw [buildDict, hp]; exact hd2⟩

theorem buildDict_ok_all (branch : String) (lines : List String) :
    ∀ d d2, buildDict branch lines d = .ok d2 →
      ∀ l ∈ lines, isErr (parseLine branch l) = false := by
  induction lines with
  | nil => intro d d2 _ l hl; simp at hl
  | cons l0 rest ih =>
    intro d d2 h l hl
    cases hp : parseLine branch l0 with
    | error e => simp [buildDict, hp] at h
    | ok p =>
      rw [buildDict, hp] at h
      rcases List.mem_cons.mp hl with heq | hmem
      · subst heq; simp [hp, isErr]
      · exact ih (assocUpdate d p.1 p.2) d2 h l hmem

theorem parse_requirements_ok (catalogue lines : List String) (branch : String)
    (R : List (String × String))
    (h : parse_requirements catalogue lines branch = .ok R) :
    R = catalogue.filterMap
      (fun r => (lastVal r (parsedPairs branch lines)).map (fun b => (r, b))) := by
  rw [parse_requirements] at h
  cases hb : buildDict branch lines [] with
  | error e => rw [hb] at h; exact Except.noConfusion h
  | ok d =>
    rw [hb] at h
    have hd := buildDict_ok_dict branch lines [] d hb
    have hR := Except.ok.inj h
    rw [← hR]
    apply List.filterMap_congr
    intro r _
    rw [hd, alookup_foldl_assocUpdate]
    cases lastVal r (parsedPairs branch lines) with
    | some v => rfl
    | none => simp [alookup]

theorem map_fst_filterMap_keyed (catalogue : List String)
    (f : String → Option String) :
    (catalogue.filterMap (fun r => (f r).map (fun b => (r, b)))).map Prod.fst
      = catalogue.filter (fun r => (f r).isSome) := by
  induction catalogue with
  | nil => simp
  | cons r rest ih =>
    cases h : f r with
    | some v => simp [h, ih]
    | none => simp [h, ih]

theorem lastVal_perm (p1 p2 : List (String × String)) (k : String)
    (hperm : p1.Perm p2) (hnd : (p1.map Prod.fst).Nodup) :
    lastVal k p1 = lastVal k p2 := by
  have hnd2 : (p2.map Prod.fst).Nodup := ((hperm.map Prod.fst).nodup_iff).mp hnd
  cases h : lastVal k p1 with
  | some v =>
    exact (lastVal_of_mem_nodup p2 k v hnd2 (hperm.mem_iff.mp (lastVal_mem p1 k v h))).symm
  | none =>
    have : k ∉ p2.map Prod.fst := fun hk => by
      have := (lastVal_eq_none_iff p1 k).mp h
      exact this (((hperm.map Prod.fst).mem_iff).mpr hk)
    exact ((lastVal_eq_none_iff p2 k).mpr this).symm

/-! ## Lemmas for the package derivation -/

theorem assocUpdate_fresh (d : List (String × String)) (k v : String)
    (h : k ∉ d.map Prod.fst) : assocUpdate d k v = d ++ [(k, v)] := by
  induction d with
  | nil => rfl
  | cons p rest ih =>
    simp only [List.map_cons, List.mem_cons] at h
    push_neg at h
    rw [assocUpdate, if_neg (fun hh => h.1 hh.symm)]
    simp [ih h.2]

theorem foldl_assocUpdate_diag (ks : List String) :
    ∀ acc, ks.Nodup → (∀ k ∈ ks, k ∉ acc.map Prod.fst) →
      ks.foldl (fun d r => assocUpdate d r r) acc = acc ++ ks.map (fun r => (r, r)) := by
  induction ks with
  | nil => intro acc _ _; simp
  | cons r rest ih =>
    intro acc hnd hfresh
    rw [List.nodup_cons] at hnd
    rw [List.foldl_cons, assocUpdate_fresh acc r r (hfresh r (List.mem_cons_self _ _))]
    rw [ih (acc ++ [(r, r)]) hnd.2 ?_]
    · simp
    · intro k hk
      simp only [List.map_append, List.mem_append, List.map_cons, List.map_nil,
        List.mem_singleton]
      push_neg
      refine ⟨hfresh k (List.mem_cons_of_mem _ hk), fun hkr => hnd.1 (hkr ▸ hk)⟩

theorem alookup_diag (ks : List String) (k : String) :
    alookup k (ks.map (fun r => (r, r))) = if k ∈ ks then some k else none := by
  induction ks with
  | nil => simp [alookup]
  | cons r rest ih =>
    by_cases h : r = k
    · subst h
      simp [alookup]
    · have : ¬ k = r := fun hh => h hh.symm
      simp [alookup, h, ih, this]

theorem odRemove_eq_filter (k : String) (l : List (String × String))
    (h : (l.map Prod.fst).Nodup) :
    odRemove k l = l.filter (fun p => p.1 ≠ k) := by
  induction l with
  | nil => rfl
  | cons p rest ih =>
    rw [List.map_cons, List.nodup_cons] at h
    by_cases hp : p.1 = k
    · rw [odRemove, if_pos hp]
      have hself : rest.filter (fun q => q.1 ≠ k) = rest := by
        rw [List.filter_eq_self]
        intro q hq
        have hq1 : q.1 ∈ rest.map Prod.fst := List.mem_map_of_mem _ hq
        simp only [ne_eq, decide_not, Bool.not_eq_true', decide_eq_false_iff_not]
        exact fun hqk => h.1 ((hp ▸ hqk) ▸ hq1)
      rw [List.filter_cons, hself]
      simp [hp]
    · rw [odRemove, if_neg hp]
      rw [List.filter_cons, ih h.2]
      simp [hp]

theorem odRemove_diag (k : String) (ks : List String) (h : ks.Nodup) :
    odRemove k (ks.map (fun r => (r, r)))
      = (ks.filter (fun r => r ≠ k)).map (fun r => (r, r)) := by
  have hnd : ((ks.map (fun r => (r, r))).map Prod.fst).Nodup := by
    rw [List.map_map]
    have hcomp : (Prod.fst ∘ fun r : String => (r, r)) = id := rfl
    rw [hcomp, List.map_id]
    exact h
  rw [odRemove_eq_filter _ _ hnd, List.filter_map]
  rfl

/-! ## Lemmas on Python substring containment -/

theorem hasSub_cons (n : List Char) (c : Char) (h : List Char)
    (hh : hasSub n h = true) : hasSub n (c :: h) = true := by
  show (hasPre n (c :: h) || hasSub n h) = true
  rw [hh]
  simp

theorem hasSub_append_left (n p h : List Char)
    (hh : hasSub n h = true) : hasSub n (p ++ h) = true := by
  induction p with
  | nil => simpa
  | cons c rest ih => exact hasSub_cons n c (rest ++ h) ih

theorem str_data_append (s t : String) : (s ++ t).data = s.data ++ t.data := rfl

theorem strContains_append_left (p h n : String)
    (hh : strContains h n = true) : strContains (p ++ h) n = true := by
  rw [strContains, str_data_append]
  exact hasSub_append_left n.data p.data h.data hh

/-! ## Order of reports in the sequential loops -/

theorem cloneRun_fst (repos : List (String × String))
    (res : String → String → Except String String) :
    (cloneRun repos res).map Prod.fst = repos.map Prod.fst := by
  rw [cloneRun, List.map_map]
  rfl

theorem checkoutRun_fst (repos : List (String × String))
    (res : String → String → Except String String) :
    (checkoutRun repos res).map Prod.fst = repos.map Prod.fst := by
  rw [checkoutRun, List.map_map]
  rfl

theorem installRun_fst (packages : List (String × String))
    (res : String → Except String String) :
    (installRun packages res).map Prod.fst = packages.map Prod.fst := by
  rw [installRun, List.map_map]
  rfl

theorem pullReports_fst (order : List String) (res : String → Except String String) :
    (pullReports order res).map Prod.fst = order := by
  rw [pullReports, List.map_map]
  exact List.map_id order

theorem statusRun_fst_take (infos : List RepoGit) :
    ∃ k, ((statusRun infos).1).map Prod.fst = (infos.map RepoGit.name).take k := by
  induction infos with
  | nil => exact ⟨0, rfl⟩
  | cons g rest ih =>
    cases hb : branchOrTag g.symref g.describeTags with
    | error e => exact ⟨0, by simp [statusRun, hb]⟩
    | ok b =>
      obtain ⟨k, hk⟩ := ih
      exact ⟨k + 1, by simp [statusRun, hb, hk]⟩

theorem statusRun_aborts (pre : List RepoGit) (bad : RepoGit) (rest : List RepoGit)
    (hpre : ∀ g ∈ pre, isErr (branchOrTag g.symref g.describeTags) = false)
    (hbad : isErr (branchOrTag bad.symref bad.describeTags) = true) :
    (statusRun (pre ++ bad :: rest)).2 = true ∧
      ((statusRun (pre ++ bad :: rest)).1).map Prod.fst = pre.map RepoGit.name := by
  induction pre with
  | nil =>
    cases hb : branchOrTag bad.symref bad.describeTags with
    | error e => simp [statusRun, hb]
    | ok b => simp [hb, isErr] at hbad
  | cons g pres ih =>
    have hg := hpre g (List.mem_cons_self _ _)
    cases hb : branchOrTag g.symref g.describeTags with
    | error e => simp [hb, isErr] at hg
    | ok b =>
      have := ih (fun x hx => hpre x (List.mem_cons_of_mem _ hx))
      simp [statusRun, hb, this.1, this.2]

/-! ## Claim theorems -/

/-- Claim C6: for every RepoSet (a mapping, so its keys carry no
duplicates), the derived package list maps each key to a package with
name = path = key, except that the plain cloudify-manager entry is
removed and, when it was present, replaced by exactly the three fixed
packages whose paths are subpaths of the manager repository
(rest-service, tests, workflows), while cloudify-manager-blueprints and
cloudify-dev are dropped entirely. -/
theorem C6_package_derivation (rs : List (String × String))
    (h : (rs.map Prod.fst).Nodup) :
    _get_cloudify_packages rs =
      ((rs.map Prod.fst).filter (fun r =>
          r ≠ "cloudify-manager" ∧ r ≠ "cloudify-manager-blueprints" ∧ r ≠ "cloudify-dev")).map
        (fun r => (r, r)) ++
      (if "cloudify-manager" ∈ rs.map Prod.fst then
        [ ("cloudify-rest-service", "cloudify-manager/rest-service")
        , ("cloudify-integration-tests", "cloudify-manager/tests")
        , ("cloudify-system-workflows", "cloudify-manager/workflows") ]
      else []) := by
  have hfold : rs.foldl (fun d p => assocUpdate d p.1 p.1) []
      = (rs.map Prod.fst).map (fun r => (r, r)) := by
    rw [← List.foldl_map Prod.fst (fun d r => assocUpdate d r r) rs []]
    exact foldl_assocUpdate_diag (rs.map Prod.fst) [] h (by simp)
  rw [_get_cloudify_packages, hfold, alookup_diag]
  rw [odRemove_diag _ _ h, odRemove_diag _ _ (h.filter _),
    odRemove_diag _ _ ((h.filter _).filter _)]
  rw [List.filter_filter, List.filter_filter]
  have hpred : (rs.map Prod.fst).filter
        (fun a => decide (a ≠ "cloudify-dev") && decide (a ≠ "cloudify-manager-blueprints")
          && decide (a ≠ "cloudify-manager"))
      = (rs.map Prod.fst).filter (fun r =>
          r ≠ "cloudify-manager" ∧ r ≠ "cloudify-manager-blueprints" ∧ r ≠ "cloudify-dev") := by
    apply List.filter_congr
    intro x _
    by_cases h1 : x = "cloudify-manager" <;> by_cases h2 : x = "cloudify-manager-blueprints" <;>
      by_cases h3 : x = "cloudify-dev" <;> simp [h1, h2, h3]
  rw [hpred]
  by_cases hm : "cloudify-manager" ∈ rs.map Prod.fst
  · simp [hm]
  · simp [hm]

/-- Witness for claim C6 at the spec example set with the manager, the
blueprints repository and one plain repository: the output is exactly
the plain package plus the three manager-derived packages. -/
theorem C6_package_derivation_witness :
    (([("cloudify-manager", MASTER), ("cloudify-manager-blueprints", MASTER),
        ("cloudify-cli", MASTER)].map Prod.fst).Nodup) ∧
    _get_cloudify_packages [("cloudify-manager", MASTER), ("cloudify-manager-blueprints", MASTER),
        ("cloudify-cli", MASTER)]
      = [ ("cloudify-cli", "cloudify-cli")
        , ("cloudify-rest-service", "cloudify-manager/rest-service")
        , ("cloudify-integration-tests", "cloudify-manager/tests")
        , ("cloudify-system-workflows", "cloudify-manager/workflows") ] := by
  refine ⟨by decide, ?_⟩
  rw [C6_package_derivation _ (by decide)]
  decide

/-- Claim C7: in the clone loop, a git failure whose message carries the
destination-path-exists marker is reported as the informational
already-cloned outcome and never as a command failure; any other clone
failure is reported as a failure for that repository, and the loop
produces one tagged outcome for every repository of the set. -/
theorem C7_clone_already_exists (repo e : String)
    (repos : List (String × String)) (res : String → String → Except String String)
    (h : strContains e "fatal: destination path" = true) :
    cloneOutcome repo (Except.error e) = "Repo is already cloned (the folder exists)" ∧
    (∀ e2, strContains ("Could not clone repo `" ++ repo ++ "`: " ++ e2)
        "fatal: destination path" = false →
      cloneOutcome repo (Except.error e2) = "Could not clone repo `" ++ repo ++ "`: " ++ e2) ∧
    (cloneRun repos res).map Prod.fst = repos.map Prod.fst := by
  refine ⟨?_, ?_, cloneRun_fst repos res⟩
  · have hc : strContains ("Could not clone repo `" ++ repo ++ "`: " ++ e)
        "fatal: destination path" = true :=
      strContains_append_left _ e _ h
    simp only [cloneOutcome]
    rw [hc]
    simp
  · intro e2 h2
    simp only [cloneOutcome]
    rw [h2]
    simp

/-- Witness for claim C7: the exact message git prints when the
destination directory exists is translated to the informational
outcome. -/
theorem C7_clone_already_exists_witness :
    strContains "fatal: destination path exists and is not an empty directory."
      "fatal: destination path" = true ∧
    cloneOutcome "docl"
        (Except.error "fatal: destination path exists and is not an empty directory.")
      = "Repo is already cloned (the folder exists)" :=
  ⟨by decide,
    (C7_clone_already_exists "docl" "fatal: destination path exists and is not an empty directory."
      [] (fun _ _ => Except.ok "") (by decide)).1⟩

/-- Claim C8: pull spawns one thread per repository of the resolved set,
joins them all, and whatever order the threads complete in, the printed
reports number exactly one per repository, each tagged with a distinct
repository name. -/
theorem C8_pull_reports (repoSet : List (String × String))
    (res : String → Except String String) (order : List String)
    (h1 : order.Perm (pullThreads repoSet)) (h2 : (pullThreads repoSet).Nodup) :
    (pullReports order res).length = repoSet.length ∧
    ((pullReports order res).map Prod.fst).Perm (pullThreads repoSet) ∧
    ((pullReports order res).map Prod.fst).Nodup := by
  have hfst := pullReports_fst order res
  refine ⟨?_, ?_, ?_⟩
  · rw [pullReports, List.length_map, h1.length_eq, pullThreads, List.length_map]
  · rw [hfst]
    exact h1
  · rw [hfst]
    exact h1.nodup_iff.mpr h2

/-- Witness for claim C8 on a two-repository set whose threads complete
in the reverse of the spawn order. -/
theorem C8_pull_reports_witness :
    (["cloudify-cli", "docl"].Perm (pullThreads [("docl", MASTER), ("cloudify-cli", "v1")])) ∧
    (pullThreads [("docl", MASTER), ("cloudify-cli", "v1")]).Nodup ∧
    ((pullReports ["cloudify-cli", "docl"] (fun _ => Except.ok "Already up-to-date.")).length
        = [("docl", MASTER), ("cloudify-cli", "v1")].length ∧
      ((pullReports ["cloudify-cli", "docl"] (fun _ => Except.ok "Already up-to-date.")).map
          Prod.fst).Perm (pullThreads [("docl", MASTER), ("cloudify-cli", "v1")]) ∧
      ((pullReports ["cloudify-cli", "docl"] (fun _ => Except.ok "Already up-to-date.")).map
          Prod.fst).Nodup) :=
  ⟨by decide, by decide,
    C8_pull_reports [("docl", MASTER), ("cloudify-cli", "v1")]
      (fun _ => Except.ok "Already up-to-date.") ["cloudify-cli", "docl"]
      (by decide) (by decide)⟩

/-- Claim C9: an override source containing a line with two or more at
signs makes the resolution step raise: the split of that line cannot be
unpacked into two names, the ValueError is not caught anywhere in
_parse_requirements, and no RepoSet is produced. -/
theorem C9_malformed_override_line (lines : List String) (branch l : String)
    (h1 : l ∈ lines) (h2 : 2 ≤ (pyStripChars l.data).count '@') :
    isErr (parse_requirements REPOS lines branch) = true := by
  have he := parseLine_err_of_two_at branch l h2
  have hbd := buildDict_err_of_mem branch lines l h1 he []
  rw [parse_requirements]
  cases hb : buildDict branch lines [] with
  | error e => simp [isErr]
  | ok d =>
    rw [hb] at hbd
    simp [isErr] at hbd

/-- Witness for claim C9 at the override line repo@ref@extra. -/
theorem C9_malformed_override_line_witness :
    ("repo@ref@extra" ∈ ["docl", "repo@ref@extra"]) ∧
    2 ≤ (pyStripChars "repo@ref@extra".data).count '@' ∧
    isErr (parse_requirements REPOS ["docl", "repo@ref@extra"] MASTER) = true :=
  ⟨by decide, by decide,
    C9_malformed_override_line ["docl", "repo@ref@extra"] MASTER "repo@ref@extra"
      (by decide) (by decide)⟩

/-- Claim C1 (amended): a RepoSet resolved from an override source
iterates in Catalogue order restricted to its keys, and every sequential
operation processes and reports repositories in the RepoSet iteration
order: clone, checkout and install report one tagged outcome per entry
in that order, and status reports an order-preserving prefix, stopping
early only when a ref is unresolvable.  The original claim also asserted
Catalogue order for the RepoSet built with no override source; the
counterexample refutes that part, since that RepoSet is a plain Python 2
dict iterated in hash-table order. -/
theorem C1_sequential_order (lines : List String) (branch : String)
    (R : List (String × String))
    (hR : parse_requirements REPOS lines branch = Except.ok R)
    (repos packages : List (String × String))
    (resClone resCheckout : String → String → Except String String)
    (resInstall : String → Except String String) (infos : List RepoGit) :
    R.map Prod.fst = REPOS.filter (fun r => r ∈ R.map Prod.fst) ∧
    (cloneRun repos resClone).map Prod.fst = repos.map Prod.fst ∧
    (checkoutRun repos resCheckout).map Prod.fst = repos.map Prod.fst ∧
    (∃ k, ((statusRun infos).1).map Prod.fst = (infos.map RepoGit.name).take k) ∧
    (installRun packages resInstall).map Prod.fst = packages.map Prod.fst := by
  refine ⟨?_, cloneRun_fst repos resClone, checkoutRun_fst repos resCheckout,
    statusRun_fst_take infos, installRun_fst packages resInstall⟩
  have hmap : R.map Prod.fst
      = REPOS.filter (fun r => (lastVal r (parsedPairs branch lines)).isSome) := by
    rw [parse_requirements_ok REPOS lines branch R hR, map_fst_filterMap_keyed]
  rw [hmap]
  apply List.filter_congr
  intro r hr
  cases h : (lastVal r (parsedPairs branch lines)).isSome with
  | true => simp [List.mem_filter, hr, h]
  | false => simp [List.mem_filter, h]

/-- Witness for claim C1 on the one-line override docl: the resolved set
is the catalogue restricted to docl, and each operation reports in set
order. -/
theorem C1_sequential_order_witness :
    parse_requirements REPOS ["docl"] MASTER = Except.ok [("docl", MASTER)] ∧
    ([("docl", MASTER)].map Prod.fst
        = REPOS.filter (fun r => r ∈ [("docl", MASTER)].map Prod.fst) ∧
      (cloneRun [("docl", MASTER)] (fun _ _ => Except.ok "")).map Prod.fst
        = [("docl", MASTER)].map Prod.fst ∧
      (checkoutRun [("docl", MASTER)] (fun _ _ => Except.ok "")).map Prod.fst
        = [("docl", MASTER)].map Prod.fst ∧
      (∃ k, ((statusRun []).1).map Prod.fst = (([] : List RepoGit).map RepoGit.name).take k) ∧
      (installRun [("docl", "docl")] (fun _ => Except.ok "")).map Prod.fst
        = [("docl", "docl")].map Prod.fst) :=
  ⟨rfl,
    C1_sequential_order ["docl"] MASTER [("docl", MASTER)] rfl
      [("docl", MASTER)] [("docl", "docl")] (fun _ _ => Except.ok "")
      (fun _ _ => Except.ok "") (fun _ => Except.ok "") []⟩

/-- Counterexample to claim C1 as stated: with no override source the
RepoSet keys are exactly the catalogue, so the Catalogue order
restricted to the present keys is the Catalogue itself, yet the
iteration order differs from it — for the dev catalogue and for the
core-only one alike. -/
theorem C1_sequential_order_counterexample :
    ((_get_repos [] MASTER true).map Prod.fst).Perm REPOS ∧
    (_get_repos [] MASTER true).map Prod.fst ≠ REPOS ∧
    ((_get_repos [] MASTER false).map Prod.fst).Perm CORE_REPOS ∧
    (_get_repos [] MASTER false).map Prod.fst ≠ CORE_REPOS :=
  ⟨by decide, by decide, by decide, by decide⟩

/-- Claim C2 (amended): applying a branch argument distinct from the
default (the MASTER constant) to an already-resolved non-empty RepoSet
rewrites exactly the entries whose ref equals the default branch and
leaves every entry pinned to another ref unchanged, so an explicit
per-repo ref wins over a global branch switch; in the spec example the
override source must name both repositories (lines A@v2 and B) for B to
appear: catalogue [A, B], those lines, default master and branch
argument release yield the RepoSet mapping A to v2 and B to release. -/
theorem C2_branch_override (actual : List (String × String)) (branch : String) (dev : Bool)
    (h1 : actual ≠ []) (h2 : branch ≠ MASTER) :
    _get_repos actual branch dev
      = actual.map (fun p => (p.1, if p.2 = MASTER then branch else p.2)) ∧
    parse_requirements ["A", "B"] ["A@v2", "B"] MASTER
      = Except.ok [("A", "v2"), ("B", MASTER)] ∧
    _get_repos [("A", "v2"), ("B", MASTER)] "release" true
      = [("A", "v2"), ("B", "release")] := by
  refine ⟨?_, rfl, rfl⟩
  rw [_get_repos, if_neg (fun hh => h1 (List.isEmpty_iff.mp hh)), if_neg h2]

/-- Witness for claim C2 at the amended spec example. -/
theorem C2_branch_override_witness :
    ([("A", "v2"), ("B", MASTER)] : List (String × String)) ≠ [] ∧
    ("release" : String) ≠ MASTER ∧
    (_get_repos [("A", "v2"), ("B", MASTER)] "release" true
        = [("A", "v2"), ("B", MASTER)].map
            (fun p => (p.1, if p.2 = MASTER then "release" else p.2)) ∧
      parse_requirements ["A", "B"] ["A@v2", "B"] MASTER
        = Except.ok [("A", "v2"), ("B", MASTER)] ∧
      _get_repos [("A", "v2"), ("B", MASTER)] "release" true
        = [("A", "v2"), ("B", "release")]) :=
  ⟨by decide, by decide,
    C2_branch_override [("A", "v2"), ("B", MASTER)] "release" true
      (by decide) (by decide)⟩

/-- Counterexample to claim C2 as stated: with the single override line
A@v2 the repository B is not part of the resolved RepoSet at all, so
applying the branch argument release yields the set mapping only A to
v2, not the set the claim promises. -/
theorem C2_branch_override_counterexample :
    parse_requirements ["A", "B"] ["A@v2"] MASTER = Except.ok [("A", "v2")] ∧
    _get_repos [("A", "v2")] "release" true = [("A", "v2")] ∧
    ([("A", "v2")] : List (String × String)) ≠ [("A", "v2"), ("B", "release")] :=
  ⟨rfl, rfl, by decide⟩

/-- Claim C3 (amended): the pull operation reports every repository, a
successful pull reports its output, and every pull failure — whatever
its cause — is translated into the informational no-upstream text; the
captured failure message is discarded, not reported. -/
theorem C3_pull_failure_translation (order : List String)
    (res : String → Except String String) (r : String) (h : r ∈ order) :
    (r, pullOutcome (res r)) ∈ pullReports order res ∧
    (∀ e, res r = Except.error e →
      pullOutcome (res r) = "No upstream defined. Skipping pull.") ∧
    (∀ o, res r = Except.ok o → pullOutcome (res r) = o) := by
  refine ⟨?_, ?_, ?_⟩
  · simp only [pullReports]
    exact List.mem_map_of_mem _ h
  · intro e he
    rw [he]
    rfl
  · intro o ho
    rw [ho]
    rfl

/-- Witness for claim C3 on a one-repository pull whose underlying
command fails. -/
theorem C3_pull_failure_translation_witness :
    ("docl" ∈ ["docl"]) ∧
    (("docl", pullOutcome ((fun _ => Except.error "boom") "docl"))
        ∈ pullReports ["docl"] (fun _ => Except.error "boom") ∧
      (∀ e, (fun _ => Except.error "boom" : String → Except String String) "docl"
          = Except.error e →
        pullOutcome ((fun _ => Except.error "boom") "docl")
          = "No upstream defined. Skipping pull.") ∧
      (∀ o, (fun _ => Except.error "boom" : String → Except String String) "docl"
          = Except.ok o →
        pullOutcome ((fun _ => Except.error "boom") "docl") = o)) :=
  ⟨by decide,
    C3_pull_failure_translation ["docl"] (fun _ => Except.error "boom") "docl" (by decide)⟩

/-- Counterexample to claim C3 as stated: a pull failure that is not the
missing-upstream condition is still reported with the informational
no-upstream text, and its captured message does not appear in the
report, so non-upstream failures are mislabeled and their messages
swallowed. -/
theorem C3_pull_failure_counterexample :
    pullOutcome (Except.error "fatal: unable to access remote: Connection refused")
      = "No upstream defined. Skipping pull." ∧
    strContains (pullOutcome (Except.error "fatal: unable to access remote: Connection refused"))
      "Connection refused" = false :=
  ⟨rfl, by decide⟩

/-- Claim C4 (amended): when the ref of a repository cannot be
determined (symbolic-ref fails and no exact tag matches), the error of
_get_current_branch_or_tag propagates out of the status loop: the
operation aborts, the repositories before the failing one are reported
in order, and the failing repository and every later one are not
processed. -/
theorem C4_status_unresolved_abort (pre : List RepoGit) (bad : RepoGit) (rest : List RepoGit)
    (hpre : ∀ g ∈ pre, isErr (branchOrTag g.symref g.describeTags) = false)
    (hbad : isErr (branchOrTag bad.symref bad.describeTags) = true) :
    (statusRun (pre ++ bad :: rest)).2 = true ∧
      ((statusRun (pre ++ bad :: rest)).1).map Prod.fst = pre.map RepoGit.name :=
  statusRun_aborts pre bad rest hpre hbad

/-- Witness for claim C4: one resolvable repository, then a repository
with detached HEAD and no matching tag, then another resolvable one;
status reports only the first and aborts. -/
theorem C4_status_unresolved_abort_witness :
    (∀ g ∈ [RepoGit.mk "docl" (Except.ok "master\n") (Except.ok "") ""],
      isErr (branchOrTag g.symref g.describeTags) = false) ∧
    isErr (branchOrTag (RepoGit.mk "cloudify-dev" (Except.error "exit 128")
        (Except.error "fatal: no tag exactly matches") "").symref
      (RepoGit.mk "cloudify-dev" (Except.error "exit 128")
        (Except.error "fatal: no tag exactly matches") "").describeTags) = true ∧
    ((statusRun ([RepoGit.mk "docl" (Except.ok "master\n") (Except.ok "") ""] ++
        RepoGit.mk "cloudify-dev" (Except.error "exit 128")
            (Except.error "fatal: no tag exactly matches") "" ::
          [RepoGit.mk "cloudify-cli" (Except.ok "v1") (Except.ok "") ""])).2 = true ∧
      ((statusRun ([RepoGit.mk "docl" (Except.ok "master\n") (Except.ok "") ""] ++
          RepoGit.mk "cloudify-dev" (Except.error "exit 128")
              (Except.error "fatal: no tag exactly matches") "" ::
            [RepoGit.mk "cloudify-cli" (Except.ok "v1") (Except.ok "") ""])).1).map Prod.fst
        = [RepoGit.mk "docl" (Except.ok "master\n") (Except.ok "") ""].map RepoGit.name) :=
  ⟨by decide, by decide,
    C4_status_unresolved_abort [RepoGit.mk "docl" (Except.ok "master\n") (Except.ok "") ""]
      (RepoGit.mk "cloudify-dev" (Except.error "exit 128")
        (Except.error "fatal: no tag exactly matches") "")
      [RepoGit.mk "cloudify-cli" (Except.ok "v1") (Except.ok "") ""]
      (by decide) (by decide)⟩

/-- Counterexample to claim C4 as stated: an unresolvable ref in the
first repository aborts the whole status operation — the batch does not
continue, and the later, perfectly resolvable repository is never
reported. -/
theorem C4_status_unresolved_counterexample :
    statusRun [ RepoGit.mk "cloudify-manager" (Except.error "exit 128")
                  (Except.error "fatal: no tag exactly matches") ""
              , RepoGit.mk "docl" (Except.ok "master\n") (Except.ok "") "" ]
      = ([], true) :=
  rfl

/-- Claim C5 (amended): for an override source accepted by the parser,
the resolved RepoSet is exactly the catalogue scan keeping the
repositories named by some line, in catalogue order, each mapped to the
ref of its last line (the default branch when that line names no ref) —
so lines naming repositories outside the catalogue are ignored — and
the result is unchanged under reordering of the lines provided no
repository is named on two lines; with duplicate names the last line
wins, so line order can matter (see the counterexample). -/
theorem C5_override_resolution (catalogue lines : List String) (branch : String)
    (R : List (String × String))
    (h : parse_requirements catalogue lines branch = Except.ok R) :
    R = catalogue.filterMap
        (fun r => (lastVal r (parsedPairs branch lines)).map (fun b => (r, b))) ∧
    R.map Prod.fst
      = catalogue.filter (fun r => (lastVal r (parsedPairs branch lines)).isSome) ∧
    (∀ r, (lastVal r (parsedPairs branch lines)).isSome = true
      ↔ r ∈ (parsedPairs branch lines).map Prod.fst) ∧
    (∀ lines2, lines.Perm lines2 → ((parsedPairs branch lines).map Prod.fst).Nodup →
      parse_requirements catalogue lines2 branch = Except.ok R) := by
  refine ⟨parse_requirements_ok catalogue lines branch R h, ?_, ?_, ?_⟩
  · rw [parse_requirements_ok catalogue lines branch R h, map_fst_filterMap_keyed]
  · intro r
    constructor
    · intro hs
      cases hv : lastVal r (parsedPairs branch lines) with
      | some v => exact List.mem_map_of_mem Prod.fst (lastVal_mem _ r v hv)
      | none => rw [hv] at hs; simp [Option.isSome] at hs
    · intro hm
      cases hv : lastVal r (parsedPairs branch lines) with
      | some v => simp [hv]
      | none => exact absurd hm ((lastVal_eq_none_iff _ r).mp hv)
  · intro lines2 hperm hnd
    have hall : ∀ l ∈ lines, isErr (parseLine branch l) = false := by
      rw [parse_requirements] at h
      cases hb : buildDict branch lines [] with
      | error e => rw [hb] at h; exact Except.noConfusion h
      | ok d => exact buildDict_ok_all branch lines [] d hb
    have hall2 : ∀ l ∈ lines2, isErr (parseLine branch l) = false := fun l hl =>
      hall l (hperm.mem_iff.mpr hl)
    obtain ⟨d2, hd2⟩ := buildDict_ok_of_all branch lines2 hall2 []
    have hok2 : parse_requirements catalogue lines2 branch = Except.ok
        (catalogue.filterMap (fun r => (alookup r d2).map (fun b => (r, b)))) := by
      rw [parse_requirements, hd2]
    rw [hok2, parse_requirements_ok catalogue lines2 branch _ hok2,
      parse_requirements_ok catalogue lines branch R h]
    apply congrArg
    apply List.filterMap_congr
    intro r _
    rw [lastVal_perm (parsedPairs branch lines) (parsedPairs branch lines2) r
      (hperm.filterMap _) hnd]

/-- Witness for claim C5: a two-line override naming distinct
repositories resolves in catalogue order with the explicit and the
defaulted ref, and reordering the two lines gives the same RepoSet. -/
theorem C5_override_resolution_witness :
    parse_requirements REPOS ["docl", "cloudify-cli@v1"] MASTER
      = Except.ok [("cloudify-cli", "v1"), ("docl", MASTER)] ∧
    ((parsedPairs MASTER ["docl", "cloudify-cli@v1"]).map Prod.fst).Nodup ∧
    (["docl", "cloudify-cli@v1"] : List String).Perm ["cloudify-cli@v1", "docl"] ∧
    parse_requirements REPOS ["cloudify-cli@v1", "docl"] MASTER
      = Except.ok [("cloudify-cli", "v1"), ("docl", MASTER)] :=
  ⟨rfl, by decide, by decide,
    (C5_override_resolution REPOS ["docl", "cloudify-cli@v1"] MASTER
        [("cloudify-cli", "v1"), ("docl", MASTER)] rfl).2.2.2
      ["cloudify-cli@v1", "docl"] (by decide) (by decide)⟩

/-- Counterexample to claim C5 as stated: an override source may name a
repository on two lines, and then the resolved ref depends on the line
order — the two orderings of the same lines resolve docl to different
refs — so the result is not independent of the override line order. -/
theorem C5_override_resolution_counterexample :
    parse_requirements REPOS ["docl@v1", "docl@v2"] MASTER = Except.ok [("docl", "v2")] ∧
    parse_requirements REPOS ["docl@v2", "docl@v1"] MASTER = Except.ok [("docl", "v1")] ∧
    (["docl@v1", "docl@v2"] : List String).Perm ["docl@v2", "docl@v1"] ∧
    (("docl", "v2") : String × String) ≠ ("docl", "v1") :=
  ⟨rfl, rfl, by decide, by decide⟩

/-- Claim C10: with no override source parsed, install derives its
packages from the full core plus dev catalogue, every entry pinned to
the default branch; the dev repositories are included unconditionally
(the model installPackages takes no dev flag, mirroring the install
command, which exposes only the verbose flag), and the dev-only
packages it yields are outside the core subset. -/
theorem C10_install_full_catalogue :
    ((_get_repos [] MASTER true).map Prod.fst).Perm REPOS ∧
    (_get_repos [] MASTER true).map Prod.snd = List.replicate REPOS.length MASTER ∧
    ("cloudify-fabric-plugin", "cloudify-fabric-plugin") ∈ installPackages [] ∧
    ("cloudify-system-tests", "cloudify-system-tests") ∈ installPackages [] ∧
    "cloudify-fabric-plugin" ∉ CORE_REPOS ∧
    "cloudify-system-tests" ∉ CORE_REPOS :=
  ⟨by decide, by decide, by decide, by decide, by decide, by decide⟩

end Clap
